import Mathlib

/-!
Shallow embedding of the connection-dispatch core of clash-rs.

Part 1: the domain trie of `src/clash/src/common/trie.rs`.

The Rust `Node<T>` keeps its children in a `HashMap<String, Node<T>>`;
the map is only ever used through keyed lookup and keyed insert
(replace-or-add), so it is embedded as an association list with unique
keys and replace-or-add update.  The traversals `insert_inner` and
`search_inner` consume the label list from its right end (`for i in
(0..parts.len()).rev()`, `parts.last()`); here the workers `insertRev`
and `searchRev` receive the already-reversed list so that the recursion
is structural, and `insert_inner` / `search_inner` reverse the forward
list before delegating.
-/

namespace ClashTrie

/-- A trie node: `children: HashMap<String, Node<T>>` (as an association
list) and `data: Option<Arc<T>>` (the `Arc` sharing is immaterial here). -/
inductive Node (α : Type) : Type where
  | mk (children : List (String × Node α)) (data : Option α) : Node α

/-- `Node::children`. -/
def Node.children {α : Type} : Node α → List (String × Node α)
  | .mk c _ => c

/-- `Node::data`. -/
def Node.data {α : Type} : Node α → Option α
  | .mk _ d => d

/-- `HashMap::get` on the children association list. -/
def lookupChild {α : Type} (cs : List (String × Node α)) (k : String) : Option (Node α) :=
  match cs with
  | [] => none
  | (k', n) :: rest => if k' = k then some n else lookupChild rest k

/-- `HashMap::insert` on the children association list: replace the value
at the key when present, otherwise add the binding. -/
def updateChild {α : Type} (cs : List (String × Node α)) (k : String) (v : Node α) :
    List (String × Node α) :=
  match cs with
  | [] => [(k, v)]
  | (k', n) :: rest => if k' = k then (k, v) :: rest else (k', n) :: updateChild rest k v

/-- `Node::get_child`. -/
def Node.getChild {α : Type} (n : Node α) (k : String) : Option (Node α) :=
  lookupChild n.children k

/-- `Node::add_child` (also covering the in-place mutation of an existing
child through `get_child_mut`). -/
def Node.setChild {α : Type} (n : Node α) (k : String) (c : Node α) : Node α :=
  .mk (updateChild n.children k c) n.data

/-- Setting `node.data = Some(data)`. -/
def Node.setData {α : Type} (n : Node α) (v : α) : Node α :=
  .mk n.children (some v)

/-- `Node::new`. -/
def Node.empty {α : Type} : Node α := .mk [] none

/-- The loop body of `StringTrie::insert_inner`, on the reversed label
list: walk from the label nearest the root (the TLD), creating missing
children, and set `data` at the final node. -/
def insertRev {α : Type} (n : Node α) (rev : List String) (v : α) : Node α :=
  match rev with
  | [] => n.setData v
  | p :: rest =>
    n.setChild p (insertRev ((n.getChild p).getD Node.empty) rest v)

/-- `StringTrie::insert_inner`: iterates the labels in reverse order. -/
def insert_inner {α : Type} (n : Node α) (parts : List String) (v : α) : Node α :=
  insertRev n parts.reverse v

/-- The `if n.data.is_some() { return Some(n) }` filter applied to the
result of a recursive `search_inner` call. -/
def filterHasData {α : Type} (r : Option (Node α)) : Option (Node α) :=
  match r with
  | some m => if m.data.isSome then some m else none
  | none => none

/-- `StringTrie::search_inner`, on the reversed label list: exhausted
labels return the current node; otherwise try the exact child, then the
`*` child (each accepted only when the recursion lands on a node with
data), and finally fall back to the `""` dot-wildcard child. -/
def searchRev {α : Type} (n : Node α) (rev : List String) : Option (Node α) :=
  match rev with
  | [] => some n
  | p :: rest =>
    match filterHasData ((n.getChild p).bind fun c => searchRev c rest) with
    | some m => some m
    | none =>
      match filterHasData ((n.getChild "*").bind fun c => searchRev c rest) with
      | some m => some m
      | none => n.getChild ""

/-- `StringTrie::search_inner`: consumes the labels right-to-left. -/
def search_inner {α : Type} (n : Node α) (parts : List String) : Option (Node α) :=
  searchRev n parts.reverse

/-- Rust `domain.split('.')` on the character list: every `.` separates,
`n` dots yield `n+1` (possibly empty) parts, and the empty string yields
one empty part. -/
def splitOnDot (cs : List Char) : List (List Char) :=
  match cs with
  | [] => [[]]
  | c :: rest =>
    if c = '.' then [] :: splitOnDot rest
    else
      match splitOnDot rest with
      | [] => [[c]]
      | h :: t => (c :: h) :: t

/-- `domain.split(DOMAIN_STEP).collect::<Vec<&str>>()`. -/
def splitDomain (domain : String) : List String :=
  (splitOnDot domain.toList).map (fun l => String.mk l)

/-- `domain.ends_with(".")`. -/
def endsWithDot (domain : String) : Bool :=
  match domain.toList.getLast? with
  | some c => c = '.'
  | none => false

/-- `valid_and_split_domain`: reject a non-empty domain with a trailing
dot; split on `.`; a single part must be non-empty; with several parts,
every part but the first must be non-empty. -/
def valid_and_split_domain (domain : String) : Option (List String) × Bool :=
  if domain ≠ "" ∧ endsWithDot domain = true then (none, false)
  else
    let parts := splitDomain domain
    if parts.length = 1 then
      if parts.headD "" = "" then (none, false) else (some parts, true)
    else if "" ∈ parts.tail then (none, false)
    else (some parts, true)

/-- `StringTrie<T>` (the `PhantomData` holder is dropped). -/
structure StringTrie (α : Type) : Type where
  root : Node α

/-- `StringTrie::new`. -/
def StringTrie.empty {α : Type} : StringTrie α := ⟨Node.empty⟩

/-- `StringTrie::insert`: validate and split, reject invalid input, and
expand a leading `+` into an insert of the bare suffix plus an insert
with the leading label rewritten to `""`.  (`splitDomain` never returns
an empty list, so the two fallthrough branches are unreachable.) -/
def StringTrie.insert {α : Type} (t : StringTrie α) (domain : String) (v : α) :
    StringTrie α × Bool :=
  match valid_and_split_domain domain with
  | (_, false) => (t, false)
  | (parts?, true) =>
    match parts? with
    | none => (t, true)
    | some [] => (t, true)
    | some (p :: rest) =>
      if p = "+" then
        let r1 := insert_inner t.root rest v
        let r2 := insert_inner r1 ("" :: rest) v
        (⟨r2⟩, true)
      else
        (⟨insert_inner t.root (p :: rest) v⟩, true)

/-- `StringTrie::search`: validate and split, refuse a leading empty
label, run `search_inner` from the root, and accept only a node that
carries data. -/
def StringTrie.search {α : Type} (t : StringTrie α) (domain : String) : Option (Node α) :=
  match valid_and_split_domain domain with
  | (_, false) => none
  | (parts?, true) =>
    match parts? with
    | none => none
    | some parts =>
      if parts.headD "" = "" then none
      else
        match search_inner t.root parts with
        | some n => if n.data.isSome then some n else none
        | none => none

/-- The data carried by the node `search` returns, when any. -/
def StringTrie.searchData {α : Type} (t : StringTrie α) (domain : String) : Option α :=
  (t.search domain).bind Node.data

/-- Insert a list of `(domain, value)` bindings left to right, dropping
the returned booleans (as the repository's tests do). -/
def StringTrie.insertAll {α : Type} (t : StringTrie α) (l : List (String × α)) : StringTrie α :=
  l.foldl (fun t p => (t.insert p.1 p.2).1) t

/-! Association-list lemmas for the children map. -/

theorem lookupChild_updateChild {α : Type} (cs : List (String × Node α)) (q k : String)
    (c : Node α) :
    lookupChild (updateChild cs q c) k = if q = k then some c else lookupChild cs k := by
  induction cs with
  | nil =>
    by_cases h : q = k <;> simp [updateChild, lookupChild, h]
  | cons hd tl ih =>
    obtain ⟨k', n⟩ := hd
    by_cases hk' : k' = q
    · subst hk'
      by_cases h : k' = k <;> simp [updateChild, lookupChild, h]
    · by_cases h : k' = k
      · subst h
        have hq : ¬ q = k' := fun he => hk' he.symm
        simp [updateChild, lookupChild, hk', hq]
      · simp [updateChild, lookupChild, hk', h, ih]

theorem getChild_setChild {α : Type} (n : Node α) (q k : String) (c : Node α) :
    (n.setChild q c).getChild k = if q = k then some c else n.getChild k := by
  cases n with
  | mk cs d => simp [Node.setChild, Node.getChild, Node.children, lookupChild_updateChild]

theorem data_setChild {α : Type} (n : Node α) (q : String) (c : Node α) :
    (n.setChild q c).data = n.data := by
  cases n with
  | mk cs d => simp [Node.setChild, Node.data]

theorem getChild_setData {α : Type} (n : Node α) (v : α) (k : String) :
    (n.setData v).getChild k = n.getChild k := by
  cases n with
  | mk cs d => simp [Node.setData, Node.getChild, Node.children]

theorem data_setData {α : Type} (n : Node α) (v : α) :
    (n.setData v).data = some v := by
  cases n with
  | mk cs d => simp [Node.setData, Node.data]

/-- Inserting never clears the data of the node it lands on. -/
theorem data_isSome_insertRev {α : Type} (n : Node α) (ins : List String) (v : α)
    (h : n.data.isSome = true) : (insertRev n ins v).data.isSome = true := by
  cases ins with
  | nil => simp [insertRev, data_setData]
  | cons q qrest => simpa [insertRev, data_setChild] using h

/-- Round trip at the worker level: after `insertRev` along a reversed
label list, `searchRev` along the same list lands on the node just
written, through the exact-child branch at every level. -/
theorem searchRev_insertRev {α : Type} (rev : List String) (n : Node α) (v : α) :
    ∃ m : Node α, searchRev (insertRev n rev v) rev = some m ∧ m.data = some v := by
  induction rev generalizing n with
  | nil =>
    exact ⟨n.setData v, by simp [insertRev, searchRev], data_setData n v⟩
  | cons p rest ih =>
    obtain ⟨m, hm, hdata⟩ := ih ((n.getChild p).getD Node.empty)
    refine ⟨m, ?_, hdata⟩
    have hchild :
        (insertRev n (p :: rest) v).getChild p
          = some (insertRev ((n.getChild p).getD Node.empty) rest v) := by
      simp [insertRev, getChild_setChild]
    have hsome : m.data.isSome = true := by simp [hdata]
    simp [searchRev, hchild, hm, filterHasData, hsome]

/-! A search along a reversed label list succeeds (in the sense the
callers of `search_inner` use: the node found carries data) — and this
success is monotone under insertion. -/

/-- Whether `searchRev` lands on a data-carrying node. -/
def foundRev {α : Type} (n : Node α) (rev : List String) : Bool :=
  match searchRev n rev with
  | some m => m.data.isSome
  | none => false

/-- Whether the child of `n` at `k`, if present, yields a successful
recursive search. -/
def childFound {α : Type} (n : Node α) (k : String) (rest : List String) : Bool :=
  match n.getChild k with
  | some c => foundRev c rest
  | none => false

/-- Whether the `""` dot-wildcard child of `n` exists and carries data. -/
def dotFound {α : Type} (n : Node α) : Bool :=
  match n.getChild "" with
  | some c => c.data.isSome
  | none => false

theorem filterHasData_eq_some {α : Type} (r : Option (Node α)) (m : Node α)
    (h : filterHasData r = some m) : r = some m ∧ m.data.isSome = true := by
  cases r with
  | none => simp [filterHasData] at h
  | some m' =>
    by_cases hd : m'.data.isSome = true
    · simp [filterHasData, hd] at h
      exact ⟨by rw [h], by rw [← h]; exact hd⟩
    · simp [filterHasData, hd] at h

theorem filterHasData_search {α : Type} (co : Option (Node α)) (rest : List String) :
    (filterHasData (co.bind fun c => searchRev c rest)).isSome
      = match co with
        | some c => foundRev c rest
        | none => false := by
  cases co with
  | none => simp [filterHasData]
  | some c =>
    simp only [Option.bind, foundRev]
    cases hs : searchRev c rest with
    | none => simp [filterHasData]
    | some m =>
      by_cases hd : m.data.isSome = true <;> simp [filterHasData, hd]

/-- Branch structure of a successful search at a non-exhausted list:
exact child, `*` child, or data-carrying `""` child. -/
theorem foundRev_cons {α : Type} (n : Node α) (p : String) (rest : List String) :
    foundRev n (p :: rest)
      = (childFound n p rest || (childFound n "*" rest || dotFound n)) := by
  have hex := filterHasData_search ((n.getChild p)) rest
  have hst := filterHasData_search ((n.getChild "*")) rest
  rw [foundRev, searchRev]
  cases he : filterHasData ((n.getChild p).bind fun c => searchRev c rest) with
  | some m =>
    have hd := (filterHasData_eq_some _ _ he).2
    rw [he] at hex
    have : childFound n p rest = true := by
      rw [childFound, ← hex]; simp
    simp [this, hd]
  | none =>
    rw [he] at hex
    have hcf : childFound n p rest = false := by
      rw [childFound, ← hex]; simp
    cases hs : filterHasData ((n.getChild "*").bind fun c => searchRev c rest) with
    | some m =>
      have hd := (filterHasData_eq_some _ _ hs).2
      rw [hs] at hst
      have : childFound n "*" rest = true := by
        rw [childFound, ← hst]; simp
      simp [hcf, this, hd]
    | none =>
      rw [hs] at hst
      have hcs : childFound n "*" rest = false := by
        rw [childFound, ← hst]; simp
      rw [hcf, hcs]
      cases hdot : n.getChild "" with
      | none => simp [dotFound, hdot]
      | some c => simp [dotFound, hdot]

/-- `insertRev` at an exhausted insertion list only touches `data`, so
search behaviour through the children is unchanged. -/
theorem foundRev_setData {α : Type} (n : Node α) (v : α) (p : String) (rest : List String) :
    foundRev (n.setData v) (p :: rest) = foundRev n (p :: rest) := by
  rw [foundRev_cons, foundRev_cons]
  have h1 : ∀ k, childFound (n.setData v) k rest = childFound n k rest := by
    intro k; rw [childFound, childFound, getChild_setData]
  have h2 : dotFound (n.setData v) = dotFound n := by
    rw [dotFound, dotFound, getChild_setData]
  rw [h1, h1, h2]

/-- One insertion step preserves a successful child branch: the insert
either rewrites exactly the child the branch goes through (then the
recursion hypothesis applies) or leaves it untouched. -/
theorem childFound_insertRev {α : Type} (rest : List String) (n : Node α) (k q : String)
    (qrest : List String) (v : α)
    (ih : ∀ (c : Node α) (ins : List String),
        foundRev c rest = true → foundRev (insertRev c ins v) rest = true)
    (hk : childFound n k rest = true) :
    childFound (insertRev n (q :: qrest) v) k rest = true := by
  obtain ⟨c, hc, hf⟩ : ∃ c, n.getChild k = some c ∧ foundRev c rest = true := by
    rw [childFound] at hk
    cases hg : n.getChild k with
    | none => rw [hg] at hk; exact absurd hk (by simp)
    | some c => exact ⟨c, rfl, by rw [hg] at hk; exact hk⟩
  simp only [insertRev, childFound]
  by_cases hq : q = k
  · subst hq
    rw [getChild_setChild, if_pos rfl]
    have hc0 : (n.getChild q).getD Node.empty = c := by rw [hc]; rfl
    rw [hc0]
    exact ih c qrest hf
  · rw [getChild_setChild, if_neg hq, hc]
    exact hf

/-- One insertion step preserves a successful dot-wildcard fallback:
the `""` child stays present and `insertRev` never clears data. -/
theorem dotFound_insertRev {α : Type} (n : Node α) (q : String) (qrest : List String)
    (v : α) (hd : dotFound n = true) :
    dotFound (insertRev n (q :: qrest) v) = true := by
  obtain ⟨c, hc, hf⟩ : ∃ c, n.getChild "" = some c ∧ c.data.isSome = true := by
    rw [dotFound] at hd
    cases hg : n.getChild "" with
    | none => rw [hg] at hd; exact absurd hd (by simp)
    | some c => exact ⟨c, rfl, by rw [hg] at hd; exact hd⟩
  simp only [insertRev, dotFound]
  by_cases hq : q = ""
  · subst hq
    rw [getChild_setChild, if_pos rfl]
    have hc0 : (n.getChild "").getD Node.empty = c := by rw [hc]; rfl
    rw [hc0]
    exact data_isSome_insertRev c qrest v hf
  · rw [getChild_setChild, if_neg hq, hc]
    exact hf

/-- Monotonicity of search success under insertion: a reversed label
list found before an `insertRev` is still found after it. -/
theorem foundRev_insertRev {α : Type} (rev : List String) (n : Node α)
    (ins : List String) (v : α) (h : foundRev n rev = true) :
    foundRev (insertRev n ins v) rev = true := by
  induction rev generalizing n ins with
  | nil =>
    have hn : n.data.isSome = true := by simpa [foundRev, searchRev] using h
    simpa [foundRev, searchRev] using data_isSome_insertRev n ins v hn
  | cons p rest ih =>
    cases ins with
    | nil =>
      rw [insertRev, foundRev_setData]; exact h
    | cons q qrest =>
      rw [foundRev_cons] at h
      rw [foundRev_cons]
      simp only [Bool.or_eq_true] at h ⊢
      rcases h with hp | hs | hdot
      · exact Or.inl (childFound_insertRev rest n p q qrest v (fun c ins => ih c ins) hp)
      · exact Or.inr (Or.inl
          (childFound_insertRev rest n "*" q qrest v (fun c ins => ih c ins) hs))
      · exact Or.inr (Or.inr (dotFound_insertRev n q qrest v hdot))

/-! Top-level characterizations of `search` and `insert`. -/

/-- A successful top-level search is exactly: valid split, non-empty
leading label, and a data-carrying node found along the reversed labels. -/
theorem search_isSome_iff {α : Type} (t : StringTrie α) (d : String) :
    ((t.search d).isSome = true) ↔
      ∃ parts, valid_and_split_domain d = (some parts, true) ∧
        parts.headD "" ≠ "" ∧ foundRev t.root parts.reverse = true := by
  constructor
  · intro h
    rw [StringTrie.search] at h
    rcases hv : valid_and_split_domain d with ⟨parts?, valid⟩
    rw [hv] at h
    cases valid with
    | false => simp at h
    | true =>
      cases parts? with
      | none => simp at h
      | some parts =>
        by_cases hh : parts.headD "" = ""
        · rw [List.headD_eq_head?] at hh
          simp [hh] at h
        · refine ⟨parts, rfl, hh, ?_⟩
          rw [List.headD_eq_head?] at hh
          cases hs : searchRev t.root parts.reverse with
          | none =>
            simp only [search_inner] at h
            simp [hh, hs] at h
          | some n =>
            by_cases hd : n.data.isSome = true
            · rw [foundRev, hs]; exact hd
            · simp only [search_inner] at h
              simp [hh, hs, hd] at h
  · rintro ⟨parts, hv, hh, hf⟩
    rw [List.headD_eq_head?] at hh
    cases hs : searchRev t.root parts.reverse with
    | none => rw [foundRev, hs] at hf; exact absurd hf (by simp)
    | some n =>
      have hd : n.data.isSome = true := by rw [foundRev, hs] at hf; exact hf
      rw [StringTrie.search, hv]
      simp only [search_inner]
      simp [hh, hs, hd]

/-- An invalid domain makes `insert` a strict no-op returning `false`. -/
theorem insert_invalid {α : Type} (t : StringTrie α) (d : String) (v : α)
    (h : (valid_and_split_domain d).2 = false) : t.insert d v = (t, false) := by
  rcases hv : valid_and_split_domain d with ⟨parts?, valid⟩
  rw [hv] at h
  cases valid with
  | false => rw [StringTrie.insert, hv]
  | true => simp at h

/-- An invalid domain makes `search` return `None`. -/
theorem search_invalid {α : Type} (t : StringTrie α) (d : String)
    (h : (valid_and_split_domain d).2 = false) : t.search d = none := by
  rcases hv : valid_and_split_domain d with ⟨parts?, valid⟩
  rw [hv] at h
  cases valid with
  | false => rw [StringTrie.search, hv]
  | true => simp at h

/-- A domain whose split has a leading empty label makes `search`
return `None`. -/
theorem search_leading_empty {α : Type} (t : StringTrie α) (d : String) (parts : List String)
    (h : (valid_and_split_domain d).1 = some parts) (hh : parts.headD "" = "") :
    t.search d = none := by
  rcases hv : valid_and_split_domain d with ⟨parts?, valid⟩
  rw [hv] at h
  cases valid with
  | false => rw [StringTrie.search, hv]
  | true =>
    cases h
    rw [List.headD_eq_head?] at hh
    rw [StringTrie.search, hv]
    simp [hh]

/-- `search` only ever returns data-carrying nodes. -/
theorem search_data_isSome {α : Type} (t : StringTrie α) (d : String) (n : Node α)
    (h : t.search d = some n) : n.data.isSome = true := by
  rcases hv : valid_and_split_domain d with ⟨parts?, valid⟩
  rw [StringTrie.search, hv] at h
  cases valid with
  | false => simp at h
  | true =>
    cases parts? with
    | none => simp at h
    | some parts =>
      dsimp only at h
      by_cases hh : parts.headD "" = ""
      · rw [if_pos hh] at h
        exact absurd h (by simp)
      · rw [if_neg hh] at h
        cases hs : search_inner t.root parts with
        | none => rw [hs] at h; simp at h
        | some m =>
          rw [hs] at h
          dsimp only at h
          by_cases hd : m.data.isSome = true
          · rw [if_pos hd] at h
            cases h
            exact hd
          · rw [if_neg hd] at h
            exact absurd h (by simp)

/-- Search success is preserved by any `insert` (successful or not). -/
theorem search_isSome_insert {α : Type} (t : StringTrie α) (d : String) (v : α)
    (q : String) (h : ((t.search q).isSome = true)) :
    (((t.insert d v).1).search q).isSome = true := by
  obtain ⟨parts, hv, hh, hf⟩ := (search_isSome_iff t q).mp h
  refine (search_isSome_iff _ q).mpr ⟨parts, hv, hh, ?_⟩
  rcases hvd : valid_and_split_domain d with ⟨parts?, valid⟩
  cases valid with
  | false => rw [StringTrie.insert, hvd]; exact hf
  | true =>
    cases parts? with
    | none => rw [StringTrie.insert, hvd]; exact hf
    | some dparts =>
      cases dparts with
      | nil => rw [StringTrie.insert, hvd]; exact hf
      | cons p rest =>
        by_cases hp : p = "+"
        · rw [StringTrie.insert, hvd]
          simp only [if_pos hp, insert_inner]
          exact foundRev_insertRev _ _ _ v (foundRev_insertRev _ _ _ v hf)
        · rw [StringTrie.insert, hvd]
          simp only [if_neg hp, insert_inner]
          exact foundRev_insertRev _ _ _ v hf

/-! Facts about domain splitting. -/

theorem splitOnDot_ne_nil (cs : List Char) : splitOnDot cs ≠ [] := by
  cases cs with
  | nil => simp [splitOnDot]
  | cons c rest =>
    rw [splitOnDot]
    by_cases h : c = '.'
    · simp [h]
    · rw [if_neg h]
      cases splitOnDot rest <;> simp

theorem splitDomain_ne_nil (d : String) : splitDomain d ≠ [] := by
  rw [splitDomain]
  intro h
  exact splitOnDot_ne_nil d.toList (List.map_eq_nil_iff.mp h)

/-- A valid split returns exactly the `.`-split of the domain. -/
theorem valid_and_split_eq_split (d : String) (parts : List String)
    (h : valid_and_split_domain d = (some parts, true)) : parts = splitDomain d := by
  simp only [valid_and_split_domain] at h
  split at h
  · simp at h
  · split at h
    · split at h
      · simp at h
      · simp at h; exact h.symm
    · split at h
      · simp at h
      · simp at h; exact h.symm

theorem valid_parts_ne_nil (d : String) (parts : List String)
    (h : valid_and_split_domain d = (some parts, true)) : parts ≠ [] := by
  rw [valid_and_split_eq_split d parts h]
  exact splitDomain_ne_nil d

/-! The dot-wildcard chain: inserting a domain with a leading empty
label builds a linear chain whose tail is the `""` child carrying the
data; a search whose labels extend the suffix by at least one non-empty
label reaches that child through the fallback branch. -/

theorem searchRev_chain {α : Type} (srev prev : List String) (v : α)
    (hne : prev ≠ []) (hq : prev.headD "" ≠ "") :
    ∃ m : Node α,
      searchRev (insertRev Node.empty (srev ++ [""]) v) (srev ++ prev) = some m ∧
        m.data = some v := by
  induction srev with
  | nil =>
    cases prev with
    | nil => exact absurd rfl hne
    | cons q qrest =>
      have hq' : ¬ ("" = q) := fun he => hq (by simp [← he])
      refine ⟨Node.mk [] (some v), ?_, rfl⟩
      simp [insertRev, searchRev, Node.setChild, Node.setData, Node.empty,
        Node.getChild, Node.children, lookupChild, updateChild, filterHasData, hq']
  | cons s srest ih =>
    obtain ⟨m, hm, hdata⟩ := ih
    refine ⟨m, ?_, hdata⟩
    have hN : insertRev Node.empty ((s :: srest) ++ [""]) v
        = Node.mk [(s, insertRev Node.empty (srest ++ [""]) v)] none := by
      simp [insertRev, Node.setChild, Node.empty, Node.getChild, Node.children,
        Node.data, lookupChild, updateChild]
    rw [hN]
    have hsome : m.data.isSome = true := by simp [hdata]
    simp [searchRev, Node.getChild, Node.children, lookupChild, hm, filterHasData, hsome]

/-- The priority scenario trie: `.dev -> 0`, `example.dev -> 1`,
`*.example.dev -> 2`, `test.example.dev -> 3`. -/
def priorityTrie : StringTrie Nat :=
  StringTrie.empty.insertAll
    [(".dev", 0), ("example.dev", 1), ("*.example.dev", 2), ("test.example.dev", 3)]

/-- Claim C1: for every valid domain `d` whose labels contain no `+`, no
`*` and no empty label, and every value `v`, `insert(d, v)` returns
`true` and an immediately following `search(d)` returns a node whose
data is `v`. -/
theorem C1_insert_search_roundtrip {α : Type} (t : StringTrie α) (d : String) (v : α)
    (parts : List String)
    (hvalid : valid_and_split_domain d = (some parts, true))
    (hplus : "+" ∉ parts) (hstar : "*" ∉ parts) (hempty : "" ∉ parts) :
    (t.insert d v).2 = true ∧ ((t.insert d v).1).searchData d = some v := by
  obtain ⟨p, rest, hparts⟩ : ∃ p rest, parts = p :: rest := by
    cases parts with
    | nil => exact absurd rfl (valid_parts_ne_nil d [] hvalid)
    | cons p rest => exact ⟨p, rest, rfl⟩
  subst hparts
  have hp : p ≠ "+" := fun he => hplus (he ▸ List.mem_cons_self p rest)
  have hpe : p ≠ "" := fun he => hempty (he ▸ List.mem_cons_self p rest)
  have hins : t.insert d v = (⟨insert_inner t.root (p :: rest) v⟩, true) := by
    rw [StringTrie.insert, hvalid]
    dsimp only
    rw [if_neg hp]
  refine ⟨by rw [hins], ?_⟩
  obtain ⟨m, hm, hdata⟩ :=
    searchRev_insertRev ((p :: rest) : List String).reverse t.root v
  have hsome : m.data.isSome = true := by simp [hdata]
  have hsearch :
      ((t.insert d v).1).search d = some m := by
    rw [hins]
    rw [StringTrie.search, hvalid]
    dsimp only
    rw [if_neg (by simpa [List.headD] using hpe)]
    simp only [search_inner, insert_inner]
    rw [hm]
    dsimp only
    rw [if_pos hsome]
  rw [StringTrie.searchData, hsearch]
  simpa using hdata

/-- Witness for C1 at `d = "example.com"`, `v = 7` in the empty trie. -/
theorem C1_witness :
    ((StringTrie.empty : StringTrie Nat).insert "example.com" 7).2 = true ∧
      (((StringTrie.empty : StringTrie Nat).insert "example.com" 7).1).searchData
        "example.com" = some 7 :=
  C1_insert_search_roundtrip StringTrie.empty "example.com" 7 ["example", "com"]
    (by decide) (by decide) (by decide) (by decide)

/-- Claim C2: search tries the exact child first, then `*`, then the
dot-wildcard, and the first branch reaching a data-carrying node wins;
on the spec's four-entry example the five lookups return 0, 0, 1, 2, 3. -/
theorem C2_specificity_priority :
    priorityTrie.searchData "test.dev" = some 0 ∧
    priorityTrie.searchData "foo.bar.dev" = some 0 ∧
    priorityTrie.searchData "example.dev" = some 1 ∧
    priorityTrie.searchData "foo.example.dev" = some 2 ∧
    priorityTrie.searchData "test.example.dev" = some 3 := by decide

/-- Counterexample to claim C3, at suffix `S = "org"`: after inserting
the dot-wildcard entry `".org"` (the insert reports success), searching
`"org"` itself — zero extra labels — does NOT return the dot-wildcard
node: `search_inner` returns the (data-less) `"org"` node before ever
consulting its `""` child, so the search fails. -/
theorem C3_counterexample :
    ((StringTrie.empty : StringTrie Nat).insert ".org" 0).2 = true ∧
      (((StringTrie.empty : StringTrie Nat).insert ".org" 0).1).searchData "org" = none ∧
      (((((StringTrie.empty : StringTrie Nat).insert ".org" 0).1).search "org").isSome
        = false) := by decide

/-- Claim C3 as amended: the dot-wildcard entry `"" :: S` matches `S`
preceded by at least ONE extra label (any non-empty further prefix), the
match landing on the data-carrying dot-wildcard node; the zero-label
case does not match. -/
theorem C3_dot_wildcard_amended {α : Type} (sparts pparts : List String) (v : α)
    (hp : pparts ≠ []) (hpl : ∀ l ∈ pparts, l ≠ "") :
    ∃ m : Node α,
      search_inner (insert_inner Node.empty ("" :: sparts) v) (pparts ++ sparts) = some m ∧
        m.data = some v := by
  have hins : insert_inner (Node.empty : Node α) ("" :: sparts) v
      = insertRev Node.empty (sparts.reverse ++ [""]) v := by
    rw [insert_inner, List.reverse_cons]
  have hsrch : ∀ n : Node α, search_inner n (pparts ++ sparts)
      = searchRev n (sparts.reverse ++ pparts.reverse) := by
    intro n
    rw [search_inner, List.reverse_append]
  obtain ⟨l', a, hconcat⟩ := (List.eq_nil_or_concat pparts).resolve_left hp
  have hrev : pparts.reverse = a :: l'.reverse := by rw [hconcat]; simp
  have hmem : a ∈ pparts := by rw [hconcat]; simp
  obtain ⟨m, hm, hdata⟩ :=
    searchRev_chain (α := α) sparts.reverse (pparts.reverse) v
      (by rw [hrev]; simp)
      (by rw [hrev]; simpa [List.headD] using hpl a hmem)
  exact ⟨m, by rw [hins, hsrch]; exact hm, hdata⟩

/-- Witness for the amended C3 at `S = ["org"]`, prefix `["test"]`. -/
theorem C3_amended_witness :
    ∃ m : Node Nat,
      search_inner (insert_inner Node.empty ("" :: ["org"]) 5) (["test"] ++ ["org"])
          = some m ∧ m.data = some 5 :=
  C3_dot_wildcard_amended ["org"] ["test"] 5 (by decide) (by decide)

/-- Claim C4: `search` never returns a node without data; an invalid
domain, or one whose split has a leading empty label, yields `None`. -/
theorem C4_search_total_safety {α : Type} (t : StringTrie α) (d : String) :
    (∀ n : Node α, t.search d = some n → n.data.isSome = true) ∧
    ((valid_and_split_domain d).2 = false → t.search d = none) ∧
    (∀ parts, (valid_and_split_domain d).1 = some parts → parts.headD "" = "" →
      t.search d = none) :=
  ⟨fun n h => search_data_isSome t d n h,
   fun h => search_invalid t d h,
   fun parts h hh => search_leading_empty t d parts h hh⟩

/-- Witness for C4: concrete invalid and leading-empty-label searches
return `None`, and a concrete successful search carries data. -/
theorem C4_witness :
    ((StringTrie.empty : StringTrie Nat).search "foo." = none) ∧
      ((StringTrie.empty : StringTrie Nat).search ".dev" = none) ∧
      ((Node.mk ([] : List (String × Node Nat)) (some 7)).data.isSome = true) :=
  ⟨(C4_search_total_safety (StringTrie.empty : StringTrie Nat) "foo.").2.1 (by decide),
   (C4_search_total_safety (StringTrie.empty : StringTrie Nat) ".dev").2.2
     ["", "dev"] (by decide) (by decide),
   (C4_search_total_safety
       (((StringTrie.empty : StringTrie Nat).insert "example.com" 7).1) "example.com").1
     (Node.mk [] (some 7)) rfl⟩

/-- Claim C5: an invalid insert returns `false` and leaves the trie
completely unchanged — in particular for `""`, `"."`, `"..dev"`,
`"foo."`. -/
theorem C5_insert_invalid_noop {α : Type} (t : StringTrie α) (v : α) :
    (∀ d, (valid_and_split_domain d).2 = false → t.insert d v = (t, false)) ∧
    t.insert "" v = (t, false) ∧
    t.insert "." v = (t, false) ∧
    t.insert "..dev" v = (t, false) ∧
    t.insert "foo." v = (t, false) :=
  ⟨fun d h => insert_invalid t d v h,
   insert_invalid t "" v (by decide),
   insert_invalid t "." v (by decide),
   insert_invalid t "..dev" v (by decide),
   insert_invalid t "foo." v (by decide)⟩

/-- Witness for C5 at the empty trie and `d = "x..y"`. -/
theorem C5_witness :
    (StringTrie.empty : StringTrie Nat).insert "x..y" 0 = (StringTrie.empty, false) :=
  (C5_insert_invalid_noop (StringTrie.empty : StringTrie Nat) 0).1 "x..y" (by decide)

/-- Claim C10 (implicit): insert is monotone on matches — a domain that
`search` resolves keeps resolving after any further successful insert. -/
theorem C10_insert_monotone {α : Type} (t t' : StringTrie α) (q d : String) (v : α)
    (hq : (t.search q).isSome = true) (h : t.insert d v = (t', true)) :
    (t'.search q).isSome = true := by
  have ht' : t' = (t.insert d v).1 := by rw [h]
  rw [ht']
  exact search_isSome_insert t d v q hq

/-- Witness for C10: `"a"` still resolves after inserting `"b.c"`. -/
theorem C10_witness :
    (((((StringTrie.empty : StringTrie Nat).insert "a" 0).1.insert "b.c" 1).1).search
      "a").isSome = true :=
  C10_insert_monotone ((StringTrie.empty : StringTrie Nat).insert "a" 0).1
    (((StringTrie.empty : StringTrie Nat).insert "a" 0).1.insert "b.c" 1).1
    "a" "b.c" 1 (by decide) rfl

example : valid_and_split_domain "example.dev" = (some ["example", "dev"], true) := by decide
example : valid_and_split_domain ".dev" = (some ["", "dev"], true) := by decide

example :
    ((StringTrie.empty.insert ".org" 0).1).searchData "test.org" = some 0 := by decide

end ClashTrie

/-!
Part 2: the tracked transport wrappers of
`src/clash_lib/src/app/dispatcher/tracked.rs` and the UDP path of
`src/clash/src/app/dispatcher.rs`.

Each `poll_*` method is embedded as a pure step function: the wrapper
state carries the per-connection counters (`TrackerInfo`), the global
meter of the statistics manager (`push_uploaded` / `push_downloaded`),
and the observable state of the close one-shot; the behaviour of the
wrapped inner endpoint is an explicit parameter (what its poll returned,
and for reads how many bytes ended up in the buffer).
-/

namespace ClashTracked

/-- `std::task::Poll`. -/
inductive Poll (α : Type) : Type where
  | ready (a : α) : Poll α
  | pending : Poll α
  deriving DecidableEq

/-- The `std::io::Error` kinds relevant here: the broken-pipe error the
wrappers synthesize, and any other error an inner endpoint may yield. -/
inductive IoError : Type where
  | brokenPipe : IoError
  | other : IoError
  deriving DecidableEq

/-- Outcome of `tokio::sync::oneshot::Receiver::try_recv`: the signal
has fired (`Ok(_)`), the channel is still open and empty
(`Err(Empty)`), or the sender was dropped (`Err(Closed)`). -/
inductive TryRecv : Type where
  | ok : TryRecv
  | empty : TryRecv
  | closed : TryRecv
  deriving DecidableEq

/-- `crate::proxy::datagram::UdpPacket { src_addr, dst_addr, data }`,
generic over the address representation, payload as a byte list. -/
structure UdpPacket (A : Type) : Type where
  srcAddr : A
  dstAddr : A
  data : List Nat
  deriving DecidableEq

/-- The observable state of a `TrackedStream`: the `TrackerInfo`
counters `download_total` / `upload_total`, the global meter of the
statistics manager, and the close one-shot receiver. -/
structure TrackedStream : Type where
  downloadTotal : Nat
  uploadTotal : Nat
  globalDownloaded : Nat
  globalUploaded : Nat
  closeNotify : TryRecv
  deriving DecidableEq

/-- `TrackedStream::poll_read`: a fired or closed close signal returns
`Ready(Err(BrokenPipe))` at once; otherwise the inner read runs (its
poll outcome is `inner`, the resulting `buf.filled().len()` is
`filledLen`) and `filledLen` is billed to the global meter and
`download_total` regardless of `inner`, which is then returned. -/
def TrackedStream.poll_read (st : TrackedStream) (inner : Poll (Except IoError Unit))
    (filledLen : Nat) : TrackedStream × Poll (Except IoError Unit) :=
  match st.closeNotify with
  | .ok => (st, .ready (.error .brokenPipe))
  | .closed => (st, .ready (.error .brokenPipe))
  | .empty =>
    ({ st with
        globalDownloaded := st.globalDownloaded + filledLen,
        downloadTotal := st.downloadTotal + filledLen },
      inner)

/-- `TrackedStream::poll_write`: a fired or closed close signal returns
`Ready(Err(BrokenPipe))` at once; otherwise the inner write's outcome is
returned, and only a `Ready(Ok(n))` outcome bills `n` to the global
meter and `upload_total`. -/
def TrackedStream.poll_write (st : TrackedStream) (inner : Poll (Except IoError Nat)) :
    TrackedStream × Poll (Except IoError Nat) :=
  match st.closeNotify with
  | .ok => (st, .ready (.error .brokenPipe))
  | .closed => (st, .ready (.error .brokenPipe))
  | .empty =>
    match inner with
    | .ready (.ok n) =>
      ({ st with
          globalUploaded := st.globalUploaded + n,
          uploadTotal := st.uploadTotal + n },
        inner)
    | _ => (st, inner)

/-- `TrackedStream::poll_flush`: close-signal check, then delegate. -/
def TrackedStream.poll_flush (st : TrackedStream) (inner : Poll (Except IoError Unit)) :
    TrackedStream × Poll (Except IoError Unit) :=
  match st.closeNotify with
  | .ok => (st, .ready (.error .brokenPipe))
  | .closed => (st, .ready (.error .brokenPipe))
  | .empty => (st, inner)

/-- `TrackedStream::poll_shutdown`: close-signal check, then delegate. -/
def TrackedStream.poll_shutdown (st : TrackedStream) (inner : Poll (Except IoError Unit)) :
    TrackedStream × Poll (Except IoError Unit) :=
  match st.closeNotify with
  | .ok => (st, .ready (.error .brokenPipe))
  | .closed => (st, .ready (.error .brokenPipe))
  | .empty => (st, inner)

/-- The observable state of a `TrackedDatagram`: same counters and
close one-shot as the stream wrapper. -/
structure TrackedDatagram : Type where
  downloadTotal : Nat
  uploadTotal : Nat
  globalDownloaded : Nat
  globalUploaded : Nat
  closeNotify : TryRecv
  deriving DecidableEq

/-- `TrackedDatagram::poll_next` (`Stream`): a fired or closed close
signal surfaces end-of-stream `Ready(None)`; otherwise the inner
stream's outcome is returned and a delivered packet bills
`pkt.data.len()` to the global meter and `download_total`. -/
def TrackedDatagram.poll_next {A : Type} (st : TrackedDatagram)
    (inner : Poll (Option (UdpPacket A))) :
    TrackedDatagram × Poll (Option (UdpPacket A)) :=
  match st.closeNotify with
  | .ok => (st, .ready none)
  | .closed => (st, .ready none)
  | .empty =>
    match inner with
    | .ready (some pkt) =>
      ({ st with
          globalDownloaded := st.globalDownloaded + pkt.data.length,
          downloadTotal := st.downloadTotal + pkt.data.length },
        inner)
    | _ => (st, inner)

/-- `TrackedDatagram::poll_ready` (`Sink`): close-signal check, then
delegate. -/
def TrackedDatagram.poll_ready (st : TrackedDatagram)
    (inner : Poll (Except IoError Unit)) :
    TrackedDatagram × Poll (Except IoError Unit) :=
  match st.closeNotify with
  | .ok => (st, .ready (.error .brokenPipe))
  | .closed => (st, .ready (.error .brokenPipe))
  | .empty => (st, inner)

/-- `TrackedDatagram::start_send` (`Sink`): a fired or closed close
signal returns `Err(BrokenPipe)` at once; otherwise `item.data.len()` is
billed to the global meter and `upload_total` BEFORE delegating to the
inner sink, whose outcome is returned. -/
def TrackedDatagram.start_send {A : Type} (st : TrackedDatagram)
    (item : UdpPacket A) (inner : Except IoError Unit) :
    TrackedDatagram × Except IoError Unit :=
  match st.closeNotify with
  | .ok => (st, .error .brokenPipe)
  | .closed => (st, .error .brokenPipe)
  | .empty =>
    ({ st with
        globalUploaded := st.globalUploaded + item.data.length,
        uploadTotal := st.uploadTotal + item.data.length },
      inner)

/-- `TrackedDatagram::poll_flush` (`Sink`): close-signal check, then
delegate. -/
def TrackedDatagram.poll_flush (st : TrackedDatagram)
    (inner : Poll (Except IoError Unit)) :
    TrackedDatagram × Poll (Except IoError Unit) :=
  match st.closeNotify with
  | .ok => (st, .ready (.error .brokenPipe))
  | .closed => (st, .ready (.error .brokenPipe))
  | .empty => (st, inner)

/-- `TrackedDatagram::poll_close` (`Sink`): close-signal check, then
delegate. -/
def TrackedDatagram.poll_close (st : TrackedDatagram)
    (inner : Poll (Except IoError Unit)) :
    TrackedDatagram × Poll (Except IoError Unit) :=
  match st.closeNotify with
  | .ok => (st, .ready (.error .brokenPipe))
  | .closed => (st, .ready (.error .brokenPipe))
  | .empty => (st, inner)

/-- Claim C6: counter update policy of `TrackedStream` — with the close
signal quiet, `poll_read` bills `buf.filled().len()` to `download_total`
and the global meter whatever the inner outcome was (and passes the
outcome through); `poll_write` bills `n` only on `Ready(Ok(n))` and
bills nothing on error or pending. -/
theorem C6_stream_counter_policy (st : TrackedStream) (h : st.closeNotify = .empty) :
    (∀ (inner : Poll (Except IoError Unit)) (filledLen : Nat),
      (st.poll_read inner filledLen).1.downloadTotal = st.downloadTotal + filledLen ∧
      (st.poll_read inner filledLen).1.globalDownloaded
          = st.globalDownloaded + filledLen ∧
      (st.poll_read inner filledLen).2 = inner) ∧
    (∀ n : Nat,
      (st.poll_write (.ready (.ok n))).1.uploadTotal = st.uploadTotal + n ∧
      (st.poll_write (.ready (.ok n))).1.globalUploaded = st.globalUploaded + n) ∧
    (∀ e : IoError, (st.poll_write (.ready (.error e))).1 = st) ∧
    (st.poll_write .pending).1 = st := by
  refine ⟨fun inner filledLen => ?_, fun n => ?_, fun e => ?_, ?_⟩ <;>
    simp [TrackedStream.poll_read, TrackedStream.poll_write, h]

/-- Witness for C6 on a fresh wrapper: a pending read of 5 buffered
bytes bills 5 down; a successful write of 3 bills 3 up; a failed write
bills nothing. -/
theorem C6_witness :
    ((⟨0, 0, 0, 0, .empty⟩ : TrackedStream).poll_read .pending 5).1.downloadTotal
        = 0 + 5 ∧
    ((⟨0, 0, 0, 0, .empty⟩ : TrackedStream).poll_write (.ready (.ok 3))).1.uploadTotal
        = 0 + 3 ∧
    ((⟨0, 0, 0, 0, .empty⟩ : TrackedStream).poll_write (.ready (.error .other))).1
        = (⟨0, 0, 0, 0, .empty⟩ : TrackedStream) :=
  ⟨((C6_stream_counter_policy ⟨0, 0, 0, 0, .empty⟩ rfl).1 .pending 5).1,
   ((C6_stream_counter_policy ⟨0, 0, 0, 0, .empty⟩ rfl).2.1 3).1,
   (C6_stream_counter_policy ⟨0, 0, 0, 0, .empty⟩ rfl).2.2.1 .other⟩

/-- Claim C7: close-signal short-circuit — when the close one-shot has
fired (`Ok`) or its sender was dropped (`Closed`), each of the nine I/O
operations completes immediately with a broken-pipe error and no state
change, except `TrackedDatagram::poll_next`, which surfaces
end-of-stream `Ready(None)`. -/
theorem C7_close_short_circuit (A : Type) (s : TrackedStream) (d : TrackedDatagram)
    (hs : s.closeNotify = .ok ∨ s.closeNotify = .closed)
    (hd : d.closeNotify = .ok ∨ d.closeNotify = .closed) :
    (∀ inner filledLen,
      s.poll_read inner filledLen = (s, .ready (.error .brokenPipe))) ∧
    (∀ inner, s.poll_write inner = (s, .ready (.error .brokenPipe))) ∧
    (∀ inner, s.poll_flush inner = (s, .ready (.error .brokenPipe))) ∧
    (∀ inner, s.poll_shutdown inner = (s, .ready (.error .brokenPipe))) ∧
    (∀ inner, d.poll_ready inner = (d, .ready (.error .brokenPipe))) ∧
    (∀ (item : UdpPacket A) inner, d.start_send item inner = (d, .error .brokenPipe)) ∧
    (∀ inner, d.poll_flush inner = (d, .ready (.error .brokenPipe))) ∧
    (∀ inner, d.poll_close inner = (d, .ready (.error .brokenPipe))) ∧
    (∀ inner : Poll (Option (UdpPacket A)), d.poll_next inner = (d, .ready none)) := by
  refine ⟨fun inner filledLen => ?_, fun inner => ?_, fun inner => ?_, fun inner => ?_,
    fun inner => ?_, fun item inner => ?_, fun inner => ?_, fun inner => ?_,
    fun inner => ?_⟩ <;>
  · rcases hs with h | h <;> rcases hd with h' | h' <;>
      simp [TrackedStream.poll_read, TrackedStream.poll_write,
        TrackedStream.poll_flush, TrackedStream.poll_shutdown,
        TrackedDatagram.poll_ready, TrackedDatagram.start_send,
        TrackedDatagram.poll_flush, TrackedDatagram.poll_close,
        TrackedDatagram.poll_next, h, h']

/-- Witness for C7: a fired signal on the stream, a dropped sender on
the datagram. -/
theorem C7_witness :
    ((⟨1, 2, 3, 4, .ok⟩ : TrackedStream).poll_read (.ready (.ok ())) 9
        = (⟨1, 2, 3, 4, .ok⟩, .ready (.error .brokenPipe))) ∧
    ((⟨1, 2, 3, 4, .closed⟩ : TrackedDatagram).poll_next
          (.ready (some (⟨0, 1, [7]⟩ : UdpPacket Nat)))
        = (⟨1, 2, 3, 4, .closed⟩, .ready none)) :=
  ⟨((C7_close_short_circuit Nat ⟨1, 2, 3, 4, .ok⟩ ⟨1, 2, 3, 4, .closed⟩
      (Or.inl rfl) (Or.inr rfl)).1 (.ready (.ok ())) 9),
   ((C7_close_short_circuit Nat ⟨1, 2, 3, 4, .ok⟩ ⟨1, 2, 3, 4, .closed⟩
      (Or.inl rfl) (Or.inr rfl)).2.2.2.2.2.2.2.2 (.ready (some ⟨0, 1, [7]⟩)))⟩

end ClashTracked

namespace ClashDispatcher

open ClashTracked (UdpPacket)

/-- The NAT rewrite of the remote-to-local task in
`Dispatcher::dispatch_datagram`: `packet.dst_addr = sess.source.into()`,
`sess.source` being the client source captured in the session when the
outbound was connected. -/
def natRewrite {A : Type} (sessSource : A) (pkt : UdpPacket A) : UdpPacket A :=
  { pkt with dstAddr := sessSource }

/-- The remote-to-local task body: every packet read from the remote
source is NAT-rewritten and forwarded (in order) to the shared
remote-receiver channel. -/
def remoteToLocal {A : Type} (sessSource : A) (packets : List (UdpPacket A)) :
    List (UdpPacket A) :=
  packets.map (natRewrite sessSource)

/-- Claim C8: UDP NAT reversal — every packet the remote-to-local task
forwards has `dst_addr` replaced by the captured client source, while
the payload and `src_addr` streams are exactly those of the packets
read. -/
theorem C8_nat_reversal {A : Type} (sessSource : A) (packets : List (UdpPacket A)) :
    (remoteToLocal sessSource packets).map UdpPacket.data
        = packets.map UdpPacket.data ∧
    (remoteToLocal sessSource packets).map UdpPacket.srcAddr
        = packets.map UdpPacket.srcAddr ∧
    ∀ q ∈ remoteToLocal sessSource packets, q.dstAddr = sessSource := by
  refine ⟨?_, ?_, ?_⟩
  · simp [remoteToLocal, natRewrite, List.map_map]
  · simp [remoteToLocal, natRewrite, List.map_map]
  · intro q hq
    obtain ⟨p, _, hp⟩ := List.mem_map.mp hq
    rw [← hp]
    rfl

/-- Witness for C8: the NAT-rewritten image of a concrete packet read
from the remote carries the client source as destination. -/
theorem C8_witness :
    (⟨1, 5, [3, 4]⟩ : UdpPacket Nat).dstAddr = 5 :=
  (C8_nat_reversal 5 [(⟨1, 2, [3, 4]⟩ : UdpPacket Nat)]).2.2 ⟨1, 5, [3, 4]⟩ (by decide)

/-- One run of Task L (the local-to-remote demux loop) of
`dispatch_datagram`, over the list of inbound packets: route each packet
to an outbound name; on a handle-map hit forward through the stored
sender; on a miss call `connect_datagram` — on success insert the new
entry and forward, on failure (`Err`) the task returns at once.  The
result is the final set of handle-map keys and the `(outbound, packet)`
pairs forwarded, in order. -/
def demuxLoop {A : Type} (route : UdpPacket A → String) (connectOk : String → Bool)
    (handleMap : List String) :
    List (UdpPacket A) → List String × List (String × UdpPacket A)
  | [] => (handleMap, [])
  | pkt :: rest =>
    if handleMap.contains (route pkt) then
      let r := demuxLoop route connectOk handleMap rest
      (r.1, (route pkt, pkt) :: r.2)
    else if connectOk (route pkt) then
      let r := demuxLoop route connectOk (route pkt :: handleMap) rest
      (r.1, (route pkt, pkt) :: r.2)
    else
      (handleMap, [])

/-- Claim C9: a `connect_datagram` failure terminates the whole flow —
when a packet misses the handle map and its outbound fails to connect,
the demux task returns immediately: the packet is not forwarded and no
later packet is processed (whatever outbounds, including already-mapped
ones, they would route to). -/
theorem C9_connect_failure_terminates {A : Type} (route : UdpPacket A → String)
    (connectOk : String → Bool) (handleMap : List String) (pkt : UdpPacket A)
    (rest : List (UdpPacket A))
    (hmiss : handleMap.contains (route pkt) = false)
    (hfail : connectOk (route pkt) = false) :
    demuxLoop route connectOk handleMap (pkt :: rest) = (handleMap, []) := by
  have hm : route pkt ∉ handleMap := by simpa using hmiss
  simp [demuxLoop, hm, hfail]

/-- Witness for C9: `"out"` fails to connect; the second packet (routed
to the already-mapped `"hit"`) is dropped with the rest of the flow. -/
theorem C9_witness :
    demuxLoop (fun p : UdpPacket Nat => if p.data = [] then "out" else "hit")
        (fun _ => false) ["hit"] [⟨0, 0, []⟩, ⟨1, 1, [2]⟩]
      = (["hit"], []) :=
  C9_connect_failure_terminates
    (fun p : UdpPacket Nat => if p.data = [] then "out" else "hit")
    (fun _ => false) ["hit"] ⟨0, 0, []⟩ [⟨1, 1, [2]⟩] (by decide) rfl

end ClashDispatcher
